import Mathlib

/-!
# blockchainlite: the HTTP facade of `api.go`

A shallow embedding of `src/api.go` (package `blockchainlite`): the response
envelope, `writeResponse`, the three handlers, `Start` and `Stop`, together
with the parts of `encoding/json` and `net/http` the handlers rely on.

* Part 1 models `json.NewDecoder(r.Body).Decode(&data)` for a target of type
  `interface{}`: the byte-at-a-time scanner of `encoding/json/scanner.go`,
  the end-of-input rule of `Decoder.readValue`, and the `float64` range check
  of `convertNumber`.
* Part 2 models the response envelope and its `omitempty` encoding.
* Part 3 models the ledger the server calls into, and the handlers.
* Part 4 models `Start`, request dispatch by `http.Server`, `Stop`, and the
  lifecycle step relation.
-/

namespace Blockchainlite

/-! ## Part 1: decoding the request body -/

/-- A byte of the request body. -/
abbrev Byte := Nat

/-- The bytes of an ASCII string literal. -/
def ascii (s : String) : List Byte := s.toList.map Char.toNat

/-- The value `Decode` stores into `data interface{}`, kept as the syntax tree
of the accepted JSON text: a number is its literal, a string is the bytes
between its quotes (escapes uninterpreted), an object is its members in source
order. `null` is the nil interface. Go's conversion of this tree to
`float64`, `string`, `[]interface{}` and `map[string]interface{}` is a total
function of the tree once every number has passed `convertNumber`. -/
inductive Value where
  | null
  | bool (b : Bool)
  | number (lit : List Byte)
  | string (lit : List Byte)
  | array (elems : List Value)
  | object (members : List (List Byte × Value))

/-- Go `isSpace`: space, tab, carriage return, line feed. -/
def isSpace (c : Byte) : Bool := c == 32 || c == 9 || c == 13 || c == 10

/-- ASCII decimal digit. -/
def isDigit (c : Byte) : Bool := 48 ≤ c && c ≤ 57

/-- ASCII hexadecimal digit, as accepted after a backslash-u escape. -/
def isHex (c : Byte) : Bool :=
  isDigit c || (97 ≤ c && c ≤ 102) || (65 ≤ c && c ≤ 70)

/-- Lower-case hexadecimal digit character of a value below 16. -/
def hexDigit (n : Nat) : Char :=
  if n < 10 then Char.ofNat (48 + n) else Char.ofNat (87 + n)

/-- Go `quoteChar`: the offending byte as it is shown in a syntax error. -/
def quoteChar (c : Byte) : String :=
  if c == 39 then "'\\''"
  else if c == 34 then "'\"'"
  else
    let inner : String :=
      if c == 92 then "\\\\"
      else if c == 7 then "\\a"
      else if c == 8 then "\\b"
      else if c == 12 then "\\f"
      else if c == 10 then "\\n"
      else if c == 13 then "\\r"
      else if c == 9 then "\\t"
      else if c == 11 then "\\v"
      else if c < 32 || c == 127 then
        "\\x" ++ String.mk [hexDigit (c / 16), hexDigit (c % 16)]
      else if (128 ≤ c && c ≤ 160) || c == 173 then
        "\\u00" ++ String.mk [hexDigit (c / 16), hexDigit (c % 16)]
      else String.mk [Char.ofNat c]
    "'" ++ inner ++ "'"

/-- Text of a `SyntaxError` raised by `scanner.error(c, context)`. -/
def syntaxError (c : Byte) (context : String) : String :=
  "invalid character " ++ quoteChar c ++ " " ++ context

/-- Go `maxNestingDepth`. -/
def maxNestingDepth : Nat := 10000

/-- An entry of the scanner's `parseState` stack, carrying what has been
built of the enclosing container. -/
inductive Frame where
  /-- Go `parseObjectKey`: reading a key, before the colon. -/
  | objectKey (members : List (List Byte × Value))
  /-- Go `parseObjectValue`: reading the value of `key`, after the colon. -/
  | objectValue (members : List (List Byte × Value)) (key : List Byte)
  /-- Go `parseArrayValue`. -/
  | arrayValue (elems : List Value)

/-- The scanner's `step` function, as data. -/
inductive Step where
  | beginValue
  | beginValueOrEmpty
  | beginStringOrEmpty
  | beginString
  /-- Go `stateEndValue`, with the value that has just been completed. -/
  | endValue (v : Value)
  | inString
  | inStringEsc
  /-- Go `stateInStringEscU`, `U1`, `U12`, `U123`: `k` hex digits read. -/
  | inStringEscU (k : Nat)
  | neg
  | num1
  | num0
  | dot
  | dot0
  | e
  | eSign
  | e0
  /-- Inside `true`, `false` or `null`: bytes still expected, and the value. -/
  | lit (name : String) (expect : List Byte) (v : Value)

/-- Scanner state: the step, the `parseState` stack (innermost first) and the
bytes of the token being read, most recent first. -/
structure Scanner where
  step : Step
  parseState : List Frame
  tok : List Byte

/-- Outcome of feeding one byte to the scanner. -/
inductive Scan where
  /-- Go `scanContinue`, `scanSkipSpace`, `scanBegin...` and the container
  ends below top level: keep reading. -/
  | more (s : Scanner)
  /-- Go `scanEnd`: the top-level value ended before this byte. -/
  | endBefore (v : Value)
  /-- Go `scanEndObject` / `scanEndArray` at top level: the value ends with
  this byte. -/
  | endWith (v : Value)
  /-- Go `scanError`. -/
  | error (msg : String)

/-- The scanner before the first byte (`scanner.reset`). -/
def Scanner.reset : Scanner := ⟨.beginValue, [], []⟩

/-- A closing bracket has popped the innermost frame, leaving `ps`; the
container `v` is complete. -/
def closeContainer (ps : List Frame) (v : Value) : Scan :=
  match ps with
  | [] => .endWith v
  | _ :: _ => .more ⟨.endValue v, ps, []⟩

/-- Go `pushParseState`: enter a container unless that exceeds the depth limit. -/
def pushParseState (c : Byte) (ps : List Frame) (f : Frame) (next : Step) : Scan :=
  if (f :: ps).length ≤ maxNestingDepth then .more ⟨next, f :: ps, []⟩
  else .error (syntaxError c "exceeded max depth")

/-- Go `stateEndValue`: the value `v` is complete and `c` is the next byte.
Under `objectKey` the completed value is always a string, `stateBeginString`
having admitted nothing else. -/
def stateEndValue (ps : List Frame) (v : Value) (c : Byte) : Scan :=
  match ps with
  | [] => .endBefore v
  | f :: rest =>
    if isSpace c then .more ⟨.endValue v, ps, []⟩
    else
      match f with
      | .objectKey ms =>
        if c == 58 then
          match v with
          | .string k => .more ⟨.beginValue, .objectValue ms k :: rest, []⟩
          | _ => .error (syntaxError c "after object key")
        else .error (syntaxError c "after object key")
      | .objectValue ms k =>
        if c == 44 then .more ⟨.beginString, .objectKey (ms ++ [(k, v)]) :: rest, []⟩
        else if c == 125 then closeContainer rest (.object (ms ++ [(k, v)]))
        else .error (syntaxError c "after object key:value pair")
      | .arrayValue es =>
        if c == 44 then .more ⟨.beginValue, .arrayValue (es ++ [v]) :: rest, []⟩
        else if c == 93 then closeContainer rest (.array (es ++ [v]))
        else .error (syntaxError c "after array element")

/-- Go `stateBeginString`. -/
def stateBeginString (ps : List Frame) (c : Byte) : Scan :=
  if isSpace c then .more ⟨.beginString, ps, []⟩
  else if c == 34 then .more ⟨.inString, ps, []⟩
  else .error (syntaxError c "looking for beginning of object key string")

/-- Go `stateBeginValue`. -/
def stateBeginValue (ps : List Frame) (c : Byte) : Scan :=
  if isSpace c then .more ⟨.beginValue, ps, []⟩
  else if c == 123 then pushParseState c ps (.objectKey []) .beginStringOrEmpty
  else if c == 91 then pushParseState c ps (.arrayValue []) .beginValueOrEmpty
  else if c == 34 then .more ⟨.inString, ps, []⟩
  else if c == 45 then .more ⟨.neg, ps, [c]⟩
  else if c == 48 then .more ⟨.num0, ps, [c]⟩
  else if c == 116 then .more ⟨.lit "true" (ascii "rue") (.bool true), ps, []⟩
  else if c == 102 then .more ⟨.lit "false" (ascii "alse") (.bool false), ps, []⟩
  else if c == 110 then .more ⟨.lit "null" (ascii "ull") .null, ps, []⟩
  else if 49 ≤ c && c ≤ 57 then .more ⟨.num1, ps, [c]⟩
  else .error (syntaxError c "looking for beginning of value")

/-- The number literal read so far, as a completed value. -/
def numberValue (tok : List Byte) : Value := .number tok.reverse

/-- Go `state0`: after a leading `0`, or after the integer digits. -/
def state0 (ps : List Frame) (tok : List Byte) (c : Byte) : Scan :=
  if c == 46 then .more ⟨.dot, ps, c :: tok⟩
  else if c == 101 || c == 69 then .more ⟨.e, ps, c :: tok⟩
  else stateEndValue ps (numberValue tok) c

/-- Go `stateESign`: after the exponent marker and its optional sign. -/
def stateESign (ps : List Frame) (tok : List Byte) (c : Byte) : Scan :=
  if isDigit c then .more ⟨.e0, ps, c :: tok⟩
  else .error (syntaxError c "in exponent of numeric literal")

/-- One byte through the scanner: `s.step(s, c)`. -/
def Scanner.feed (s : Scanner) (c : Byte) : Scan :=
  match s.step with
  | .beginValue => stateBeginValue s.parseState c
  | .beginValueOrEmpty =>
    if isSpace c then .more s
    else if c == 93 then
      match s.parseState with
      | _ :: rest => closeContainer rest (.array [])
      | [] => .error (syntaxError c "looking for beginning of value")
    else stateBeginValue s.parseState c
  | .beginStringOrEmpty =>
    if isSpace c then .more s
    else if c == 125 then
      match s.parseState with
      | _ :: rest => closeContainer rest (.object [])
      | [] => .error (syntaxError c "looking for beginning of object key string")
    else stateBeginString s.parseState c
  | .beginString => stateBeginString s.parseState c
  | .endValue v => stateEndValue s.parseState v c
  | .inString =>
    if c == 34 then .more ⟨.endValue (.string s.tok.reverse), s.parseState, []⟩
    else if c == 92 then .more ⟨.inStringEsc, s.parseState, c :: s.tok⟩
    else if c < 32 then .error (syntaxError c "in string literal")
    else .more ⟨.inString, s.parseState, c :: s.tok⟩
  | .inStringEsc =>
    if c == 98 || c == 102 || c == 110 || c == 114 || c == 116 || c == 92 || c == 47
        || c == 34 then
      .more ⟨.inString, s.parseState, c :: s.tok⟩
    else if c == 117 then .more ⟨.inStringEscU 0, s.parseState, c :: s.tok⟩
    else .error (syntaxError c "in string escape code")
  | .inStringEscU k =>
    if isHex c then
      .more ⟨if k < 3 then .inStringEscU (k + 1) else .inString, s.parseState, c :: s.tok⟩
    else .error (syntaxError c "in \\u hexadecimal character escape")
  | .neg =>
    if c == 48 then .more ⟨.num0, s.parseState, c :: s.tok⟩
    else if 49 ≤ c && c ≤ 57 then .more ⟨.num1, s.parseState, c :: s.tok⟩
    else .error (syntaxError c "in numeric literal")
  | .num1 =>
    if isDigit c then .more ⟨.num1, s.parseState, c :: s.tok⟩
    else state0 s.parseState s.tok c
  | .num0 => state0 s.parseState s.tok c
  | .dot =>
    if isDigit c then .more ⟨.dot0, s.parseState, c :: s.tok⟩
    else .error (syntaxError c "after decimal point in numeric literal")
  | .dot0 =>
    if isDigit c then .more ⟨.dot0, s.parseState, c :: s.tok⟩
    else if c == 101 || c == 69 then .more ⟨.e, s.parseState, c :: s.tok⟩
    else stateEndValue s.parseState (numberValue s.tok) c
  | .e =>
    if c == 43 || c == 45 then .more ⟨.eSign, s.parseState, c :: s.tok⟩
    else stateESign s.parseState s.tok c
  | .eSign => stateESign s.parseState s.tok c
  | .e0 =>
    if isDigit c then .more ⟨.e0, s.parseState, c :: s.tok⟩
    else stateEndValue s.parseState (numberValue s.tok) c
  | .lit name expect v =>
    match expect with
    | [] => stateEndValue s.parseState v c
    | x :: rest =>
      if c == x then
        match rest with
        | [] => .more ⟨.endValue v, s.parseState, []⟩
        | _ :: _ => .more ⟨.lit name rest v, s.parseState, []⟩
      else
        .error (syntaxError c
          ("in literal " ++ name ++ " (expecting " ++ quoteChar x ++ ")"))

/-- Result of `Decoder.readValue`. -/
inductive Read where
  /-- A complete value, and the bytes of the body after it. -/
  | value (v : Value) (rest : List Byte)
  /-- The body ended inside (or before) the value. -/
  | eof
  /-- The scanner rejected a byte. -/
  | error (msg : String)

/-- Go `Decoder.readValue`: feed the body to the scanner until the top-level
value ends; at end of input feed one space, as Go does, to flush a number,
literal or string that is waiting for its terminating byte. -/
def readValue : Scanner → List Byte → Read
  | s, [] =>
    match s.feed 32 with
    | .endBefore v => .value v []
    | _ => .eof
  | s, c :: cs =>
    match s.feed c with
    | .more s' => readValue s' cs
    | .endBefore v => .value v (c :: cs)
    | .endWith v => .value v cs
    | .error msg => .error msg

/-- Go `nonSpace`: the buffer holds a byte that is not white space. -/
def nonSpace (b : List Byte) : Bool := b.any (fun c => !isSpace c)

/-- Smallest magnitude that `strconv.ParseFloat(s, 64)` rounds to infinity:
half an ulp above the largest finite `float64`, `2^1024 - 2^970`. -/
def float64Overflow : Nat := 2 ^ 1024 - 2 ^ 970

/-- Value of a run of decimal digits. -/
def digitsValue (ds : List Byte) : Nat := ds.foldl (fun n d => n * 10 + (d - 48)) 0

/-- Exponent digits as `strconv` accumulates them: no further digit is added
once the exponent has reached 10000. -/
def expValue (ds : List Byte) : Nat :=
  ds.foldl (fun n d => if n < 10000 then n * 10 + (d - 48) else n) 0

/-- Go `convertNumber` for an `interface{}` target: `strconv.ParseFloat(s, 64)`
fails exactly when the literal is out of range, that is when the decimal value
`digits * 10 ^ (exponent - fraction length)` rounds to infinity. The rounded
`float64` itself is not modelled; this returns whether the conversion succeeds.
The comparison is exact arithmetic on the literal; `strconv` computes the same
for a literal that fits its decimal buffer of 800 significant digits. -/
def convertNumber (lit : List Byte) : Bool :=
  let unsigned := match lit with
    | 45 :: t => t
    | l => l
  let intPart := unsigned.takeWhile isDigit
  let afterInt := unsigned.dropWhile isDigit
  let fracPart := match afterInt with
    | 46 :: t => t.takeWhile isDigit
    | _ => []
  let afterFrac := match afterInt with
    | 46 :: t => t.dropWhile isDigit
    | l => l
  let expNeg := match afterFrac with
    | _ :: 45 :: _ => true
    | _ => false
  let expDigits := match afterFrac with
    | _ :: 45 :: t => t
    | _ :: 43 :: t => t
    | _ :: t => t
    | [] => []
  let d := digitsValue (intPart ++ fracPart)
  let e := expValue expDigits
  let f := fracPart.length
  if d == 0 then true
  else if expNeg then decide (d < float64Overflow * 10 ^ (e + f))
  else if f ≤ e then decide (d * 10 ^ (e - f) < float64Overflow)
  else decide (d < float64Overflow * 10 ^ (f - e))

mutual
/-- The first number literal of the tree, in document order, that
`convertNumber` rejects: the error `decodeState.saveError` keeps. -/
def Value.firstBadNumber : Value → Option (List Byte)
  | .null => none
  | .bool _ => none
  | .number lit => if convertNumber lit then none else some lit
  | .string _ => none
  | .array es => firstBadNumberList es
  | .object ms => firstBadNumberMembers ms
/-- First rejected number among array elements. -/
def firstBadNumberList : List Value → Option (List Byte)
  | [] => none
  | v :: vs =>
    match v.firstBadNumber with
    | some lit => some lit
    | none => firstBadNumberList vs
/-- First rejected number among object members. -/
def firstBadNumberMembers : List (List Byte × Value) → Option (List Byte)
  | [] => none
  | (_, v) :: ms =>
    match v.firstBadNumber with
    | some lit => some lit
    | none => firstBadNumberMembers ms
end

/-- Text of the `UnmarshalTypeError` for a number that does not fit `float64`. -/
def unmarshalNumberError (lit : List Byte) : String :=
  "json: cannot unmarshal number " ++ String.mk (lit.map Char.ofNat)
    ++ " into Go value of type float64"

/-- Model of `json.NewDecoder(r.Body).Decode(&data)` with `data interface{}`,
on a body that is read without I/O error: the decoded value, or the text of
the error. Only the first JSON value of the body is read; the bytes after it
are not examined. -/
def Decode (body : List Byte) : Except String Value :=
  match readValue Scanner.reset body with
  | .value v _ =>
    match v.firstBadNumber with
    | none => .ok v
    | some lit => .error (unmarshalNumberError lit)
  | .eof => .error (if nonSpace body then "unexpected EOF" else "EOF")
  | .error msg => .error msg

/-- Go `json.Valid`: the whole body is one JSON value, with nothing but white
space around it. -/
def Valid (body : List Byte) : Bool :=
  match readValue Scanner.reset body with
  | .value _ rest => rest.all isSpace
  | _ => false

/-! ## Part 2: the response envelope and the response writer -/

/-- A Go slice value: `nil`, or a (possibly empty) sequence of elements. -/
inductive Slice (α : Type) where
  | nil
  | mk (elems : List α)

/-- Elements of a slice; the nil slice has none. -/
def Slice.toList {α : Type} : Slice α → List α
  | .nil => []
  | .mk l => l

/-- What the handlers store into `Response.Data interface{}`: the nil
interface, the fixed success string, a non-nil block pointer returned by
`GetLatestBlock`, or the slice returned by `GetBlockHistory`. -/
inductive Data (β : Type) where
  | nil
  | string (s : String)
  | block (b : β)
  | blocks (bs : Slice β)

/-- Go `Response`. -/
structure Response (β : Type) where
  Code : Nat
  Data : Data β
  Error : String

/-- JSON form of a non-nil `Data`: a nil slice encodes as `null`, any other
slice as an array, the empty one as `[]`. -/
inductive Wire (β : Type) where
  | null
  | string (s : String)
  | block (b : β)
  | list (bs : List β)

/-- The JSON object `json.Encoder.Encode` writes for a `Response`:
`code` always, `data` and `error` when present. -/
structure Envelope (β : Type) where
  code : Nat
  data : Option (Wire β)
  error : Option String

/-- The `data,omitempty` rule on a field of interface type: the field is left
out exactly when the interface is nil. A slice stored in the interface, nil or
empty, is a non-nil interface and is encoded. -/
def Data.marshal {β : Type} : Data β → Option (Wire β)
  | .nil => none
  | .string s => some (.string s)
  | .block b => some (.block b)
  | .blocks .nil => some .null
  | .blocks (.mk l) => some (.list l)

/-- Encoding of a `Response` under its struct tags `json:"code"`,
`json:"data,omitempty"`, `json:"error,omitempty"`. -/
def Response.marshal {β : Type} (r : Response β) : Envelope β :=
  { code := r.Code
    data := r.Data.marshal
    error := if r.Error = "" then none else some r.Error }

/-- What a handler has done to its `http.ResponseWriter`: the header entries
it has set, its `WriteHeader` calls, and the envelopes it has written, each in
call order. -/
structure ResponseWriter (β : Type) where
  header : List (String × String)
  statusLines : List Nat
  body : List (Envelope β)

/-- The writer a handler receives: nothing set, nothing written. -/
def ResponseWriter.fresh {β : Type} : ResponseWriter β := ⟨[], [], []⟩

/-- Go `w.WriteHeader(code)`. -/
def ResponseWriter.WriteHeader {β : Type} (w : ResponseWriter β) (code : Nat) :
    ResponseWriter β :=
  { w with statusLines := w.statusLines ++ [code] }

/-- Go `json.NewEncoder(w).Encode(response)`; the blocks of the ledger are
taken to be encodable, as every decoded payload is. -/
def ResponseWriter.Encode {β : Type} (w : ResponseWriter β) (r : Response β) :
    ResponseWriter β :=
  { w with body := w.body ++ [r.marshal] }

/-- Value of a header the handler has set, if any. -/
def ResponseWriter.headerGet {β : Type} (w : ResponseWriter β) (key : String) :
    Option String :=
  (w.header.find? (fun kv => kv.1 == key)).map Prod.snd

/-- Go `http.StatusOK`. -/
def StatusOK : Nat := 200
/-- Go `http.StatusCreated`. -/
def StatusCreated : Nat := 201
/-- Go `http.StatusBadRequest`. -/
def StatusBadRequest : Nat := 400
/-- Go `http.StatusNotFound`. -/
def StatusNotFound : Nat := 404
/-- Go `http.StatusInternalServerError`. -/
def StatusInternalServerError : Nat := 500

/-- Go `(*Server).writeResponse`. -/
def writeResponse {β : Type} (w : ResponseWriter β) (code : Nat) (data : Data β)
    (errMsg : String) : ResponseWriter β :=
  let response : Response β := { Code := code, Data := data, Error := errMsg }
  (w.WriteHeader code).Encode response

/-! ## Part 3: the ledger and the handlers -/

/-- The methods of `*Blockchain` that `api.go` calls, over a ledger state `σ`
with blocks of type `β`. An `error` result is its text, `none` for nil; the
block of `GetLatestBlock` is a pointer, `none` for nil. -/
structure Blockchain (σ β : Type) where
  AddBlock : σ → Value → σ × Option String
  GetLatestBlock : σ → σ × Option β × Option String
  GetBlockHistory : σ → σ × Slice β × Option String
  Close : σ → σ × Option String

/-- An effect of the server on its two collaborators: a call on the ledger
handle, `ListenAndServe` on the HTTP server, or `Shutdown` under a deadline
given in nanoseconds. -/
inductive Event where
  | AddBlock (data : Value)
  | GetLatestBlock
  | GetBlockHistory
  | Close
  | ListenAndServe (addr : String)
  | Shutdown (timeout : Nat)

/-- The three handler methods of `Server`. -/
inductive HandlerName where
  | addBlock
  | getLatestBlock
  | getBlockHistory

/-- A route of a gorilla/mux router: `r.HandleFunc(path, f).Methods(method)`. -/
structure Route where
  path : String
  method : String
  handler : HandlerName

/-- A gorilla/mux router: its routes in registration order. -/
abbrev Router := List Route

/-- Go `http.Server`, as far as `api.go` touches it: the address, and the
handler, `none` for the nil `Handler` that `&http.Server{}` has. -/
structure HttpServer where
  Addr : String
  Handler : Option Router

/-- Go `Server`: the ledger handle and the HTTP server, with the record of
the effects of this server so far, oldest first. -/
structure Server (σ : Type) where
  blockchain : σ
  httpServer : HttpServer
  log : List Event

/-- Go `*http.Request`, as far as the handlers and the router read it. -/
structure Request where
  Method : String
  Path : String
  Body : List Byte

/-- Go `(*Server).AddBlockHandler`. -/
def AddBlockHandler {σ β : Type} (bc : Blockchain σ β) (s : Server σ)
    (w : ResponseWriter β) (r : Request) : Server σ × ResponseWriter β :=
  match Decode r.Body with
  | .error err => (s, writeResponse w StatusBadRequest .nil err)
  | .ok data =>
    let res := bc.AddBlock s.blockchain data
    let s' := { s with blockchain := res.1, log := s.log ++ [.AddBlock data] }
    match res.2 with
    | some err => (s', writeResponse w StatusInternalServerError .nil err)
    | none => (s', writeResponse w StatusCreated (.string "Block added successfully") "")

/-- Go `(*Server).GetLatestBlockHandler`. -/
def GetLatestBlockHandler {σ β : Type} (bc : Blockchain σ β) (s : Server σ)
    (w : ResponseWriter β) (_r : Request) : Server σ × ResponseWriter β :=
  let res := bc.GetLatestBlock s.blockchain
  let s' := { s with blockchain := res.1, log := s.log ++ [.GetLatestBlock] }
  match res.2.2 with
  | some err => (s', writeResponse w StatusInternalServerError .nil err)
  | none =>
    match res.2.1 with
    | none => (s', writeResponse w StatusNotFound .nil "No blocks found")
    | some block => (s', writeResponse w StatusOK (.block block) "")

/-- Go `(*Server).GetBlockHistoryHandler`. -/
def GetBlockHistoryHandler {σ β : Type} (bc : Blockchain σ β) (s : Server σ)
    (w : ResponseWriter β) (_r : Request) : Server σ × ResponseWriter β :=
  let res := bc.GetBlockHistory s.blockchain
  let s' := { s with blockchain := res.1, log := s.log ++ [.GetBlockHistory] }
  match res.2.2 with
  | some err => (s', writeResponse w StatusInternalServerError .nil err)
  | none => (s', writeResponse w StatusOK (.blocks res.2.1) "")

/-- Running the named handler method. -/
def runHandler {σ β : Type} (h : HandlerName) (bc : Blockchain σ β)
    (s : Server σ) (w : ResponseWriter β) (r : Request) :
    Server σ × ResponseWriter β :=
  match h with
  | .addBlock => AddBlockHandler bc s w r
  | .getLatestBlock => GetLatestBlockHandler bc s w r
  | .getBlockHistory => GetBlockHistoryHandler bc s w r

/-! ## Part 4: construction, `Start`, dispatch, `Stop`, lifecycle -/

/-- Go `NewServer`, with `NewBlockchain` as a parameter: the ledger is opened and
the HTTP server is the zero `http.Server`, whose `Handler` is nil. -/
def NewServer {σ : Type} (newBlockchain : String → Except String σ) (bcName : String) :
    Except String (Server σ) :=
  match newBlockchain bcName with
  | .error err => .error err
  | .ok bc => .ok { blockchain := bc, httpServer := { Addr := "", Handler := none }, log := [] }

/-- What `Start` leaves behind: the server, the router `r` it built as a local
variable, and its return value. -/
structure Started (σ : Type) where
  server : Server σ
  r : Router
  err : Option String

/-- Go `(*Server).Start`: build the router and register the three routes on
it, store the address, launch `ListenAndServe` in the background, return nil.
The router is not stored anywhere: `s.httpServer.Handler` is not assigned. -/
def Start {σ : Type} (s : Server σ) (addr : String) : Started σ :=
  let r : Router :=
    [ ⟨"/blocks", "POST", .addBlock⟩,
      ⟨"/blocks/latest", "GET", .getLatestBlock⟩,
      ⟨"/blocks/history", "GET", .getBlockHistory⟩ ]
  { server :=
      { s with
        httpServer := { s.httpServer with Addr := addr }
        log := s.log ++ [.ListenAndServe addr] }
    r := r
    err := none }

/-- Where a request ends up. -/
inductive Dispatch where
  /-- One of the three handler methods of the server. -/
  | handler (h : HandlerName)
  /-- The router's 404. -/
  | notFound
  /-- The router's 405: a route has the path but not the method. -/
  | methodNotAllowed
  /-- Go `http.DefaultServeMux`, on which `api.go` registers nothing. -/
  | defaultServeMux

/-- Matching of a gorilla/mux router: the first route with the request's path
and method; 405 if only the path matches some route; 404 otherwise. -/
def route (rt : Router) (req : Request) : Dispatch :=
  match rt.find? (fun x => x.path == req.Path && x.method == req.Method) with
  | some x => .handler x.handler
  | none => if rt.any (fun x => x.path == req.Path) then .methodNotAllowed else .notFound

/-- Go `serverHandler.ServeHTTP`: a listening `http.Server` passes each
request to its `Handler`, and to `http.DefaultServeMux` when `Handler` is nil. -/
def HttpServer.dispatch (srv : HttpServer) (req : Request) : Dispatch :=
  match srv.Handler with
  | some rt => route rt req
  | none => .defaultServeMux

/-- Go `time.Second`, in nanoseconds. -/
def Second : Nat := 1000000000

/-- First half of `Stop`: `s.blockchain.Close()`, its result discarded. -/
def stopClose {σ β : Type} (bc : Blockchain σ β) (s : Server σ) : Server σ :=
  { s with blockchain := (bc.Close s.blockchain).1, log := s.log ++ [.Close] }

/-- Second half of `Stop`: `s.httpServer.Shutdown(ctx)` with `ctx` expiring
after five seconds; `shutdown` is what `net/http` answers. -/
def stopShutdown {σ : Type} (shutdown : HttpServer → Nat → Option String) (s : Server σ) :
    Server σ × Option String :=
  let timeout := 5 * Second
  ({ s with log := s.log ++ [.Shutdown timeout] }, shutdown s.httpServer timeout)

/-- Go `(*Server).Stop`. -/
def Stop {σ β : Type} (bc : Blockchain σ β) (shutdown : HttpServer → Nat → Option String)
    (s : Server σ) : Server σ × Option String :=
  stopShutdown shutdown (stopClose bc s)

/-- The event is one of the three ledger operations of the handlers. -/
def Event.isLedgerCall : Event → Bool
  | .AddBlock _ => true
  | .GetLatestBlock => true
  | .GetBlockHistory => true
  | _ => false

/-- The event is the closing of the ledger handle. -/
def Event.isClose : Event → Bool
  | .Close => true
  | _ => false

/-- The event is the shutdown of the listener. -/
def Event.isShutdown : Event → Bool
  | .Shutdown _ => true
  | _ => false

/-- Some `Stop` has closed the ledger and not yet shut the listener down. -/
def Server.closePending {σ : Type} (s : Server σ) : Bool :=
  decide (s.log.countP Event.isShutdown < s.log.countP Event.isClose)

/-- A step of the server's life. -/
inductive Action where
  /-- A call of `Start`. -/
  | start (addr : String)
  /-- A request reaches the `http.Server` of the server, which dispatches it. -/
  | request (r : Request)
  /-- A handler method of the server is called directly with a request. -/
  | call (h : HandlerName) (r : Request)
  /-- The first half of a call of `Stop`. -/
  | stopClose
  /-- The second half of a call of `Stop`. -/
  | stopShutdown

/-- The step relation, as a function. `Start`, the closing half of `Stop` and
a direct call of a handler method can happen at any time: `api.go` guards none
of them. A request that reaches the HTTP server runs the handler that
`HttpServer.dispatch` selects, and none of the three if it selects none. The
shutdown half of `Stop` follows its closing half. Each handler makes at most
one ledger call, so taking a handler run as one step loses no order of ledger
calls and `Stop` halves. -/
def step {σ β : Type} (bc : Blockchain σ β) (shutdown : HttpServer → Nat → Option String)
    (s : Server σ) : Action → Option (Server σ)
  | .start addr => some (Start s addr).server
  | .request r =>
    match s.httpServer.dispatch r with
    | .handler h => some (runHandler h bc s ResponseWriter.fresh r).1
    | _ => some s
  | .call h r => some (runHandler h bc s ResponseWriter.fresh r).1
  | .stopClose => some (stopClose bc s)
  | .stopShutdown => if s.closePending then some (stopShutdown shutdown s).1 else none

/-- Executions: the state after a sequence of steps, if each is enabled. -/
def run {σ β : Type} (bc : Blockchain σ β) (shutdown : HttpServer → Nat → Option String) :
    Server σ → List Action → Option (Server σ)
  | s, [] => some s
  | s, a :: as =>
    match step bc shutdown s a with
    | some s' => run bc shutdown s' as
    | none => none

/-- No ledger call is recorded after an event satisfying `p`. -/
def noLedgerCallAfter (p : Event → Bool) : List Event → Bool
  | [] => true
  | e :: es => (!p e || es.all (fun x => !x.isLedgerCall)) && noLedgerCallAfter p es

/-- The handler gets as far as its ledger call on this request:
`AddBlockHandler` when the body decodes, the two read handlers always. -/
def HandlerName.reachesLedger : HandlerName → Request → Bool
  | .addBlock, r =>
    match Decode r.Body with
    | .ok _ => true
    | .error _ => false
  | .getLatestBlock, _ => true
  | .getBlockHistory, _ => true

/-- The step runs a handler that gets as far as its ledger call, on a server
whose HTTP server has the handler `hd`. -/
def Action.reachesLedger (hd : Option Router) : Action → Bool
  | .request r =>
    match ({ Addr := "", Handler := hd } : HttpServer).dispatch r with
    | .handler h => h.reachesLedger r
    | _ => false
  | .call h r => h.reachesLedger r
  | _ => false

/-- The step is a direct call of a handler method. -/
def Action.isCall : Action → Bool
  | .call _ _ => true
  | _ => false

/-- The step is the closing half of `Stop`. -/
def Action.isStopClose : Action → Bool
  | .stopClose => true
  | _ => false

/-- Some step after the first closing half of `Stop` runs a handler that gets
as far as its ledger call. -/
def ledgerReachedAfterClose (hd : Option Router) : List Action → Bool
  | [] => false
  | a :: as =>
    if a.isStopClose then as.any (Action.reachesLedger hd)
    else ledgerReachedAfterClose hd as

/-! ### The ledger contract -/

/-- Modelled from the spec: the ledger collaborator (`Blockchain`,
`NewBlockchain`, `AddBlock`, `GetLatestBlock`, `GetBlockHistory`, `Close` are
not in `api.go`). Section 6: append, latest and history fail on a
storage-level failure; a block is the payload it was appended with. This is
the state of an in-memory ledger: the payloads appended so far, oldest first,
and the storage failure, if any, that makes its operations fail. -/
structure Ledger where
  blocks : List Value
  fault : Option String

/-- Modelled from the spec: the in-memory ledger of section 6. `latest`
reports no block on an empty ledger as a normal result, `history` is the
ordered sequence of all blocks, oldest first. The spec does not say which Go
slice stands for the empty history: with `nilWhenEmpty` it is the nil slice
(`var blocks []Block`, never appended to), otherwise an empty non-nil slice. -/
def memLedger (nilWhenEmpty : Bool) : Blockchain Ledger Value where
  AddBlock l p :=
    match l.fault with
    | some e => (l, some e)
    | none => ({ l with blocks := l.blocks ++ [p] }, none)
  GetLatestBlock l :=
    match l.fault with
    | some e => (l, none, some e)
    | none => (l, l.blocks.getLast?, none)
  GetBlockHistory l :=
    match l.fault with
    | some e => (l, .nil, some e)
    | none => (l, if nilWhenEmpty && l.blocks.isEmpty then .nil else .mk l.blocks, none)
  Close l := (l, none)

/-- Modelled from the spec: "N successful appends": the ledger state after
appending the payloads in order, if every append succeeds. -/
def appendAll {σ β : Type} (bc : Blockchain σ β) : σ → List Value → Option σ
  | s, [] => some s
  | s, p :: ps =>
    match bc.AddBlock s p with
    | (s', none) => appendAll bc s' ps
    | (_, some _) => none

/-- Modelled from the spec: the contract of `latest` (section 6) for a ledger
that is empty in state `s0`: after any successful appends, a lookup that does
not fail returns the block appended last, and no block if there is none. -/
def HonoursLatest {σ : Type} (bc : Blockchain σ Value) (s0 : σ) : Prop :=
  ∀ ps s, appendAll bc s0 ps = some s →
    (bc.GetLatestBlock s).2.2 = none → (bc.GetLatestBlock s).2.1 = ps.getLast?

/-- Modelled from the spec: the contract of `history` (sections 6 and 8) for a
ledger that is empty in state `s0`: after any successful appends, the fetch
returns, without error, the appended blocks, oldest first. -/
def HonoursHistory {σ : Type} (bc : Blockchain σ Value) (s0 : σ) : Prop :=
  ∀ ps s, appendAll bc s0 ps = some s →
    (bc.GetBlockHistory s).2.2 = none ∧ (bc.GetBlockHistory s).2.1.toList = ps

/-! ### Concrete servers and requests used in the examples -/

/-- The in-memory ledger with no block and no storage failure. -/
def emptyLedger : Ledger := ⟨[], none⟩

/-- The server `NewServer` returns over the empty in-memory ledger. -/
def newServer : Server Ledger :=
  { blockchain := emptyLedger, httpServer := { Addr := "", Handler := none }, log := [] }

/-- A server whose in-memory ledger fails with the given storage error. -/
def faultyServer (e : String) : Server Ledger :=
  { newServer with blockchain := ⟨[], some e⟩ }

/-- A `POST /blocks` request with the given body. -/
def postBlocks (body : List Byte) : Request := ⟨"POST", "/blocks", body⟩

/-- A `GET` request without body. -/
def get (path : String) : Request := ⟨"GET", path, []⟩

/-- The payload `\x7b"amount":n\x7d`, as decoded. -/
def amount (n : String) : Value := .object [(ascii "amount", .number (ascii n))]

/-- A ledger whose `GetLatestBlock` returns both a block and an error, and
whose other operations succeed without effect. -/
def latestWithError (b : Value) (e : String) : Blockchain Unit Value where
  AddBlock s _ := (s, none)
  GetLatestBlock s := (s, some b, some e)
  GetBlockHistory s := (s, .mk [], none)
  Close s := (s, none)

/-! ## Decidable equality of the model's values -/

mutual
/-- Structural equality test on decoded values. -/
def Value.beq : Value → Value → Bool
  | .null, .null => true
  | .bool a, .bool b => a == b
  | .number a, .number b => a == b
  | .string a, .string b => a == b
  | .array a, .array b => beqElems a b
  | .object a, .object b => beqMembers a b
  | _, _ => false
/-- Structural equality test on array elements. -/
def beqElems : List Value → List Value → Bool
  | [], [] => true
  | a :: as, b :: bs => a.beq b && beqElems as bs
  | _, _ => false
/-- Structural equality test on object members. -/
def beqMembers : List (List Byte × Value) → List (List Byte × Value) → Bool
  | [], [] => true
  | (j, a) :: as, (k, b) :: bs => j == k && a.beq b && beqMembers as bs
  | _, _ => false
end

mutual
theorem Value.beq_iff : ∀ (a b : Value), a.beq b = true ↔ a = b
  | .null, b => by cases b <;> simp [Value.beq]
  | .bool a, b => by cases b <;> simp [Value.beq]
  | .number a, b => by cases b <;> simp [Value.beq]
  | .string a, b => by cases b <;> simp [Value.beq]
  | .array a, b => by
    cases b <;> simp [Value.beq]
    exact beqElems_iff a _
  | .object a, b => by
    cases b <;> simp [Value.beq]
    exact beqMembers_iff a _
theorem beqElems_iff : ∀ (as bs : List Value), beqElems as bs = true ↔ as = bs
  | [], bs => by cases bs <;> simp [beqElems]
  | a :: as, bs => by
    cases bs with
    | nil => simp [beqElems]
    | cons b bs => simp [beqElems, Value.beq_iff a b, beqElems_iff as bs]
theorem beqMembers_iff :
    ∀ (as bs : List (List Byte × Value)), beqMembers as bs = true ↔ as = bs
  | [], bs => by cases bs <;> simp [beqMembers]
  | (j, a) :: as, bs => by
    cases bs with
    | nil => simp [beqMembers]
    | cons b bs =>
      obtain ⟨k, b⟩ := b
      simp [beqMembers, Value.beq_iff a b, beqMembers_iff as bs, and_assoc]
end

instance : DecidableEq Value := fun a b => decidable_of_iff _ (Value.beq_iff a b)

deriving instance DecidableEq for Except
deriving instance DecidableEq for Slice
deriving instance DecidableEq for Data
deriving instance DecidableEq for Response
deriving instance DecidableEq for Wire
deriving instance DecidableEq for Envelope
deriving instance DecidableEq for ResponseWriter
deriving instance DecidableEq for Event
deriving instance DecidableEq for HandlerName
deriving instance DecidableEq for Route
deriving instance DecidableEq for HttpServer
deriving instance DecidableEq for Server
deriving instance DecidableEq for Dispatch
deriving instance DecidableEq for Ledger
deriving instance DecidableEq for Read

/-! ## Facts about the decoder -/

theorem syntaxError_ne_empty (c : Byte) (context : String) : syntaxError c context ≠ "" := by
  intro h
  have hl := congrArg String.length h
  simp [syntaxError, String.length_append] at hl
  exact absurd hl.1.1.1 (by decide)

theorem unmarshalNumberError_ne_empty (lit : List Byte) : unmarshalNumberError lit ≠ "" := by
  intro h
  have hl := congrArg String.length h
  simp [unmarshalNumberError, String.length_append] at hl
  exact absurd hl.2 (by decide)

theorem stateEndValue_error {ps : List Frame} {v : Value} {c : Byte} {msg : String}
    (h : stateEndValue ps v c = .error msg) : msg ≠ "" := by
  unfold stateEndValue closeContainer at h
  repeat' split at h
  all_goals first
    | (cases h; apply syntaxError_ne_empty)
    | cases h

theorem stateBeginValue_error {ps : List Frame} {c : Byte} {msg : String}
    (h : stateBeginValue ps c = .error msg) : msg ≠ "" := by
  unfold stateBeginValue pushParseState at h
  repeat' split at h
  all_goals first
    | (cases h; apply syntaxError_ne_empty)
    | cases h

theorem stateBeginString_error {ps : List Frame} {c : Byte} {msg : String}
    (h : stateBeginString ps c = .error msg) : msg ≠ "" := by
  unfold stateBeginString at h
  repeat' split at h
  all_goals first
    | (cases h; apply syntaxError_ne_empty)
    | cases h

theorem feed_error {s : Scanner} {c : Byte} {msg : String}
    (h : s.feed c = .error msg) : msg ≠ "" := by
  unfold Scanner.feed state0 stateESign closeContainer at h
  repeat' split at h
  all_goals first
    | (cases h; apply syntaxError_ne_empty)
    | exact stateEndValue_error h
    | exact stateBeginValue_error h
    | exact stateBeginString_error h
    | cases h

theorem readValue_error {body : List Byte} :
    ∀ {s : Scanner} {msg : String}, readValue s body = .error msg → msg ≠ "" := by
  induction body with
  | nil =>
    intro s msg h
    unfold readValue at h
    split at h <;> cases h
  | cons c cs ih =>
    intro s msg h
    unfold readValue at h
    split at h
    · exact ih h
    · cases h
    · cases h
    · rename_i m hm
      cases h
      exact feed_error hm

/-- Every error of the decoder has a non-empty text. -/
theorem Decode_error_ne_empty {body : List Byte} {e : String}
    (h : Decode body = .error e) : e ≠ "" := by
  unfold Decode at h
  split at h
  · split at h
    · cases h
    · cases h
      apply unmarshalNumberError_ne_empty
  · cases h
    split <;> decide
  · rename_i m hm
    cases h
    exact readValue_error hm

/-- A body that `json.Valid` accepts is rejected by the decoder only for a
number that does not fit `float64`. -/
theorem Decode_of_Valid {body : List Byte} (h : Valid body = true) :
    (∃ v, Decode body = .ok v) ∨ (∃ lit, Decode body = .error (unmarshalNumberError lit)) := by
  unfold Valid at h
  unfold Decode
  split at h
  · rename_i v rest hv
    rw [hv]
    cases hb : v.firstBadNumber with
    | none => exact Or.inl ⟨v, by simp [hb]⟩
    | some lit => exact Or.inr ⟨lit, by simp [hb]⟩
  · cases h

/-! ## The handlers -/

theorem writeResponse_fresh {β : Type} (code : Nat) (data : Data β) (errMsg : String) :
    writeResponse ResponseWriter.fresh code data errMsg =
      ⟨[], [code], [(⟨code, data, errMsg⟩ : Response β).marshal]⟩ := rfl

/-- C1: each of the three handlers, on every request and every ledger
outcome, writes exactly one status line and exactly one envelope, and the
`code` of the envelope is the status code written. -/
theorem handler_writes_one_status_line_and_one_envelope {σ β : Type} (h : HandlerName)
    (bc : Blockchain σ β) (s : Server σ) (w : ResponseWriter β) (r : Request) :
    ∃ code env,
      (runHandler h bc s w r).2.statusLines = w.statusLines ++ [code] ∧
      (runHandler h bc s w r).2.body = w.body ++ [env] ∧
      env.code = code := by
  cases h
  · show ∃ code env, (AddBlockHandler bc s w r).2.statusLines = w.statusLines ++ [code] ∧
      (AddBlockHandler bc s w r).2.body = w.body ++ [env] ∧ env.code = code
    unfold AddBlockHandler
    cases Decode r.Body with
    | error e => exact ⟨_, _, rfl, rfl, rfl⟩
    | ok v =>
      dsimp only
      cases (bc.AddBlock s.blockchain v).2 <;> exact ⟨_, _, rfl, rfl, rfl⟩
  · show ∃ code env,
      (GetLatestBlockHandler bc s w r).2.statusLines = w.statusLines ++ [code] ∧
      (GetLatestBlockHandler bc s w r).2.body = w.body ++ [env] ∧ env.code = code
    unfold GetLatestBlockHandler
    dsimp only
    cases (bc.GetLatestBlock s.blockchain).2.2 with
    | some e => exact ⟨_, _, rfl, rfl, rfl⟩
    | none =>
      dsimp only
      cases (bc.GetLatestBlock s.blockchain).2.1 <;> exact ⟨_, _, rfl, rfl, rfl⟩
  · show ∃ code env,
      (GetBlockHistoryHandler bc s w r).2.statusLines = w.statusLines ++ [code] ∧
      (GetBlockHistoryHandler bc s w r).2.body = w.body ++ [env] ∧ env.code = code
    unfold GetBlockHistoryHandler
    dsimp only
    cases (bc.GetBlockHistory s.blockchain).2.2 <;> exact ⟨_, _, rfl, rfl, rfl⟩

/-- C3, as stated, fails: a body that is a JSON value followed by bytes that
are not JSON is not valid JSON, yet `AddBlockHandler` answers 201 and has
called `AddBlock` with the leading value. -/
theorem addBlock_accepts_trailing_bytes :
    Valid (ascii "\x7b\"amount\":10\x7d trailing") = false ∧
    AddBlockHandler (memLedger false) newServer ResponseWriter.fresh
        (postBlocks (ascii "\x7b\"amount\":10\x7d trailing")) =
      ({ newServer with
          blockchain := ⟨[amount "10"], none⟩
          log := [.AddBlock (amount "10")] },
       ⟨[], [201], [⟨201, some (.string "Block added successfully"), none⟩]⟩) := by
  decide!

/-- C3, amended: whenever decoding the body fails, `AddBlockHandler` answers
400 with the decoder's error text as `error`, which is not empty, and no
`data`; the server, its ledger and its record of ledger calls are untouched. -/
theorem addBlock_undecodable_body_gives_400 {σ β : Type} (bc : Blockchain σ β)
    (s : Server σ) (r : Request) (e : String) (h : Decode r.Body = .error e) :
    AddBlockHandler bc s ResponseWriter.fresh r =
      (s, ⟨[], [400], [⟨400, none, some e⟩]⟩) ∧ e ≠ "" := by
  have he : e ≠ "" := Decode_error_ne_empty h
  refine ⟨?_, he⟩
  unfold AddBlockHandler
  rw [h]
  simp [writeResponse_fresh, Response.marshal, Data.marshal, StatusBadRequest, he]

/-- C3, amended, on an empty body and on an unterminated object. -/
theorem addBlock_undecodable_body_gives_400_witness :
    (Decode (postBlocks []).Body = .error "EOF" ∧
      AddBlockHandler (memLedger false) newServer ResponseWriter.fresh (postBlocks []) =
        (newServer, ⟨[], [400], [⟨400, none, some "EOF"⟩]⟩) ∧ "EOF" ≠ "") ∧
    (Decode (postBlocks (ascii "\x7b\"amount\":")).Body = .error "unexpected EOF" ∧
      AddBlockHandler (memLedger false) newServer ResponseWriter.fresh
          (postBlocks (ascii "\x7b\"amount\":")) =
        (newServer, ⟨[], [400], [⟨400, none, some "unexpected EOF"⟩]⟩) ∧
      "unexpected EOF" ≠ "") :=
  ⟨⟨by decide, addBlock_undecodable_body_gives_400 _ _ _ _ (by decide)⟩,
   ⟨by decide, addBlock_undecodable_body_gives_400 _ _ _ _ (by decide)⟩⟩

/-- C4, as stated, fails: `1e999` is valid JSON and the ledger accepts every
payload, yet `AddBlockHandler` answers 400 and never calls `AddBlock`, because
the number does not fit the `float64` that `Decode` stores for it. -/
theorem addBlock_rejects_valid_json_beyond_float64 :
    Valid (ascii "1e999") = true ∧
    (∀ v, ((memLedger false).AddBlock emptyLedger v).2 = none) ∧
    AddBlockHandler (memLedger false) newServer ResponseWriter.fresh
        (postBlocks (ascii "1e999")) =
      (newServer,
       ⟨[], [400],
        [⟨400, none,
          some "json: cannot unmarshal number 1e999 into Go value of type float64"⟩]⟩) := by
  refine ⟨by decide, fun v => rfl, by decide!⟩

/-- C4, amended: for every body the decoder accepts, `null` included, and for
which `AddBlock` succeeds on the decoded value, `AddBlockHandler` calls
`AddBlock` once, with that value, and answers 201 with `data` the fixed
success string and no `error`. -/
theorem addBlock_decoded_body_gives_201 {σ β : Type} (bc : Blockchain σ β)
    (s : Server σ) (r : Request) (v : Value) (hd : Decode r.Body = .ok v)
    (ha : (bc.AddBlock s.blockchain v).2 = none) :
    AddBlockHandler bc s ResponseWriter.fresh r =
      ({ s with
          blockchain := (bc.AddBlock s.blockchain v).1
          log := s.log ++ [.AddBlock v] },
       ⟨[], [201], [⟨201, some (.string "Block added successfully"), none⟩]⟩) := by
  unfold AddBlockHandler
  rw [hd]
  simp [ha, writeResponse_fresh, Response.marshal, Data.marshal, StatusCreated]

/-- C4, amended, on the body `null`: `AddBlock` is called with the nil value. -/
theorem addBlock_decoded_body_gives_201_witness :
    Decode (postBlocks (ascii "null")).Body = .ok .null ∧
    AddBlockHandler (memLedger false) newServer ResponseWriter.fresh
        (postBlocks (ascii "null")) =
      ({ newServer with blockchain := ⟨[.null], none⟩, log := [.AddBlock .null] },
       ⟨[], [201], [⟨201, some (.string "Block added successfully"), none⟩]⟩) :=
  ⟨by decide, addBlock_decoded_body_gives_201 _ _ _ _ (by decide) rfl⟩

/-- C5, as stated, fails for an error whose text is empty: the handler
answers 500 without `data`, but `error,omitempty` leaves the `error` field
out of the envelope. -/
theorem ledger_error_with_empty_text_has_no_error_field :
    ((memLedger false).GetBlockHistory (faultyServer "").blockchain).2.2 = some "" ∧
    GetBlockHistoryHandler (memLedger false) (faultyServer "") ResponseWriter.fresh
        (get "/blocks/history") =
      ({ faultyServer "" with log := [.GetBlockHistory] },
       ⟨[], [500], [⟨500, none, none⟩]⟩) ∧
    (none : Option String) ≠ some "" := by
  decide

/-- C5, amended: on each route, when the ledger operation the handler invokes
returns an error `e` with a non-empty text, the handler answers 500 with
`error` equal to `e` and no `data`, and has invoked that operation once; for
`GetLatestBlockHandler` whatever the block returned with the error. -/
theorem ledger_error_gives_500 {σ β : Type} (bc : Blockchain σ β) (s : Server σ)
    (r : Request) (e : String) (he : e ≠ "") :
    (∀ v, Decode r.Body = .ok v → (bc.AddBlock s.blockchain v).2 = some e →
      AddBlockHandler bc s ResponseWriter.fresh r =
        ({ s with
            blockchain := (bc.AddBlock s.blockchain v).1
            log := s.log ++ [.AddBlock v] },
         ⟨[], [500], [⟨500, none, some e⟩]⟩)) ∧
    (∀ block, bc.GetLatestBlock s.blockchain =
        ((bc.GetLatestBlock s.blockchain).1, block, some e) →
      GetLatestBlockHandler bc s ResponseWriter.fresh r =
        ({ s with
            blockchain := (bc.GetLatestBlock s.blockchain).1
            log := s.log ++ [.GetLatestBlock] },
         ⟨[], [500], [⟨500, none, some e⟩]⟩)) ∧
    ((bc.GetBlockHistory s.blockchain).2.2 = some e →
      GetBlockHistoryHandler bc s ResponseWriter.fresh r =
        ({ s with
            blockchain := (bc.GetBlockHistory s.blockchain).1
            log := s.log ++ [.GetBlockHistory] },
         ⟨[], [500], [⟨500, none, some e⟩]⟩)) := by
  refine ⟨?_, ?_, ?_⟩
  · intro v hd ha
    unfold AddBlockHandler
    rw [hd]
    simp [ha, writeResponse_fresh, StatusInternalServerError, Response.marshal, Data.marshal, he]
  · intro block hl
    have hl' : (bc.GetLatestBlock s.blockchain).2.2 = some e := by rw [hl]
    unfold GetLatestBlockHandler
    simp [hl', writeResponse_fresh, StatusInternalServerError, Response.marshal,
      Data.marshal, he]
  · intro hh
    unfold GetBlockHistoryHandler
    simp [hh, writeResponse_fresh, StatusInternalServerError, Response.marshal, Data.marshal, he]

/-- C5, amended, on concrete ledgers: a storage failure under `POST /blocks`
and under `GET /blocks/history`, and a lookup that returns a block together
with an error under `GET /blocks/latest`. -/
theorem ledger_error_gives_500_witness :
    AddBlockHandler (memLedger false) (faultyServer "disk full") ResponseWriter.fresh
        (postBlocks (ascii "null")) =
      ({ faultyServer "disk full" with log := [.AddBlock .null] },
       ⟨[], [500], [⟨500, none, some "disk full"⟩]⟩) ∧
    GetLatestBlockHandler (latestWithError (amount "10") "read failed")
        (⟨(), ⟨"", none⟩, []⟩ : Server Unit) ResponseWriter.fresh (get "/blocks/latest") =
      (⟨(), ⟨"", none⟩, [.GetLatestBlock]⟩, ⟨[], [500], [⟨500, none, some "read failed"⟩]⟩) ∧
    GetBlockHistoryHandler (memLedger false) (faultyServer "disk full") ResponseWriter.fresh
        (get "/blocks/history") =
      ({ faultyServer "disk full" with log := [.GetBlockHistory] },
       ⟨[], [500], [⟨500, none, some "disk full"⟩]⟩) :=
  ⟨(ledger_error_gives_500 (memLedger false) (faultyServer "disk full")
      (postBlocks (ascii "null")) "disk full" (by decide)).1 .null (by decide) rfl,
   (ledger_error_gives_500 (latestWithError (amount "10") "read failed")
      ⟨(), ⟨"", none⟩, []⟩ (get "/blocks/latest") "read failed" (by decide)).2.1
      (some (amount "10")) rfl,
   (ledger_error_gives_500 (memLedger false) (faultyServer "disk full")
      (get "/blocks/history") "disk full" (by decide)).2.2 rfl⟩

/-! ## The in-memory ledger honours the contract -/

theorem memLedger_appendAll (f : Bool) :
    ∀ (ps : List Value) (l s : Ledger), appendAll (memLedger f) l ps = some s →
      s.blocks = l.blocks ++ ps ∧ s.fault = l.fault := by
  intro ps
  induction ps with
  | nil =>
    intro l s h
    simp [appendAll] at h
    subst h
    simp
  | cons p ps ih =>
    intro l s h
    unfold appendAll at h
    cases hf : l.fault with
    | some e => simp [memLedger, hf] at h
    | none =>
      simp only [memLedger, hf] at h
      have := ih _ _ h
      simpa [hf] using this

theorem memLedger_honoursLatest (f : Bool) : HonoursLatest (memLedger f) emptyLedger := by
  intro ps s hs hok
  obtain ⟨hb, hf⟩ := memLedger_appendAll f ps _ _ hs
  have hf' : s.fault = none := by simpa [emptyLedger] using hf
  simp [memLedger, hf', hb, emptyLedger]

theorem memLedger_honoursHistory (f : Bool) : HonoursHistory (memLedger f) emptyLedger := by
  intro ps s hs
  obtain ⟨hb, hf⟩ := memLedger_appendAll f ps _ _ hs
  have hf' : s.fault = none := by simpa [emptyLedger] using hf
  have hb' : s.blocks = ps := by simpa [emptyLedger] using hb
  simp only [memLedger, hf', hb']
  cases ps with
  | nil => cases f <;> simp [Slice.toList]
  | cons p ps => simp [Slice.toList]

/-! ## Reads -/

/-- C6: on a ledger that honours the contract of `latest`, whenever the lookup
does not fail, `GetLatestBlockHandler` answers 404 with error "No blocks
found" and no `data` if nothing has been appended, and 200 with `data` the
block appended last and no `error` otherwise; after one append, `data` is the
block just appended. -/
theorem latest_block_handler_on_contract {σ : Type} (bc : Blockchain σ Value) (s0 : σ)
    (s : Server σ) (ps : List Value) (r : Request)
    (hc : HonoursLatest bc s0) (hs : appendAll bc s0 ps = some s.blockchain)
    (hok : (bc.GetLatestBlock s.blockchain).2.2 = none) :
    (ps = [] →
      (GetLatestBlockHandler bc s ResponseWriter.fresh r).2 =
        ⟨[], [404], [⟨404, none, some "No blocks found"⟩]⟩) ∧
    (∀ b, ps.getLast? = some b →
      (GetLatestBlockHandler bc s ResponseWriter.fresh r).2 =
        ⟨[], [200], [⟨200, some (.block b), none⟩]⟩) ∧
    (∀ p, ps = [p] →
      (GetLatestBlockHandler bc s ResponseWriter.fresh r).2 =
        ⟨[], [200], [⟨200, some (.block p), none⟩]⟩) := by
  have hl := hc ps s.blockchain hs hok
  have h404 : ps.getLast? = none →
      (GetLatestBlockHandler bc s ResponseWriter.fresh r).2 =
        ⟨[], [404], [⟨404, none, some "No blocks found"⟩]⟩ := by
    intro hn
    unfold GetLatestBlockHandler
    simp [hok, hl, hn, writeResponse_fresh, Response.marshal, Data.marshal, StatusNotFound]
  have h200 : ∀ b, ps.getLast? = some b →
      (GetLatestBlockHandler bc s ResponseWriter.fresh r).2 =
        ⟨[], [200], [⟨200, some (.block b), none⟩]⟩ := by
    intro b hb
    unfold GetLatestBlockHandler
    simp [hok, hl, hb, writeResponse_fresh, Response.marshal, Data.marshal, StatusOK]
  refine ⟨fun h => h404 (by simp [h]), h200, fun p h => h200 p (by simp [h])⟩

/-- C6 on the in-memory ledger: empty, then after appending one payload. -/
theorem latest_block_handler_on_contract_witness :
    (GetLatestBlockHandler (memLedger false) newServer ResponseWriter.fresh
        (get "/blocks/latest")).2 =
      ⟨[], [404], [⟨404, none, some "No blocks found"⟩]⟩ ∧
    (GetLatestBlockHandler (memLedger false)
        { newServer with blockchain := ⟨[amount "10"], none⟩ } ResponseWriter.fresh
        (get "/blocks/latest")).2 =
      ⟨[], [200], [⟨200, some (.block (amount "10")), none⟩]⟩ :=
  ⟨(latest_block_handler_on_contract (memLedger false) emptyLedger newServer []
      (get "/blocks/latest") (memLedger_honoursLatest false) rfl rfl).1 rfl,
   (latest_block_handler_on_contract (memLedger false) emptyLedger
      { newServer with blockchain := ⟨[amount "10"], none⟩ } [amount "10"]
      (get "/blocks/latest") (memLedger_honoursLatest false) rfl rfl).2.2 _ rfl⟩

/-- C7, as stated, fails for no appends: a ledger that honours the contract
of `history` and returns the nil slice for the empty history makes
`GetBlockHistoryHandler` answer 200 with `data` being `null`, not an empty
sequence. -/
theorem history_handler_null_on_nil_slice :
    HonoursHistory (memLedger true) emptyLedger ∧
    appendAll (memLedger true) emptyLedger [] = some newServer.blockchain ∧
    (GetBlockHistoryHandler (memLedger true) newServer ResponseWriter.fresh
        (get "/blocks/history")).2 =
      ⟨[], [200], [⟨200, some .null, none⟩]⟩ ∧
    (some Wire.null : Option (Wire Value)) ≠ some (.list []) :=
  ⟨memLedger_honoursHistory true, rfl, by decide, by decide⟩

/-- C7, amended: on a ledger that honours the contract of `history`, after
the appends `ps`, `GetBlockHistoryHandler` answers 200 with no `error` and
with `data` present, the encoding of the slice the ledger returned: `null`
when that is the nil slice, which can only be when `ps` is empty, and the
sequence `ps` in append order when it is not nil, the empty sequence
included; whenever `ps` is not empty `data` is the sequence `ps`. -/
theorem history_handler_on_contract {σ : Type} (bc : Blockchain σ Value) (s0 : σ)
    (s : Server σ) (ps : List Value) (r : Request)
    (hc : HonoursHistory bc s0) (hs : appendAll bc s0 ps = some s.blockchain) :
    ((bc.GetBlockHistory s.blockchain).2.1 = .nil →
      ps = [] ∧
      (GetBlockHistoryHandler bc s ResponseWriter.fresh r).2 =
        ⟨[], [200], [⟨200, some .null, none⟩]⟩) ∧
    (∀ l, (bc.GetBlockHistory s.blockchain).2.1 = .mk l →
      l = ps ∧
      (GetBlockHistoryHandler bc s ResponseWriter.fresh r).2 =
        ⟨[], [200], [⟨200, some (.list ps), none⟩]⟩) ∧
    (ps ≠ [] →
      (GetBlockHistoryHandler bc s ResponseWriter.fresh r).2 =
        ⟨[], [200], [⟨200, some (.list ps), none⟩]⟩) := by
  obtain ⟨hok, hl⟩ := hc ps s.blockchain hs
  have hnil : (bc.GetBlockHistory s.blockchain).2.1 = .nil →
      ps = [] ∧
      (GetBlockHistoryHandler bc s ResponseWriter.fresh r).2 =
        ⟨[], [200], [⟨200, some .null, none⟩]⟩ := by
    intro hb
    rw [hb] at hl
    refine ⟨by simpa [Slice.toList] using hl.symm, ?_⟩
    unfold GetBlockHistoryHandler
    simp [hok, hb, writeResponse_fresh, Response.marshal, Data.marshal, StatusOK]
  have hmk : ∀ l, (bc.GetBlockHistory s.blockchain).2.1 = .mk l →
      l = ps ∧
      (GetBlockHistoryHandler bc s ResponseWriter.fresh r).2 =
        ⟨[], [200], [⟨200, some (.list ps), none⟩]⟩ := by
    intro l hb
    rw [hb] at hl
    have hlp : l = ps := by simpa [Slice.toList] using hl
    refine ⟨hlp, ?_⟩
    unfold GetBlockHistoryHandler
    simp [hok, hb, hlp, writeResponse_fresh, Response.marshal, Data.marshal, StatusOK]
  refine ⟨hnil, hmk, ?_⟩
  intro hne
  cases hb : (bc.GetBlockHistory s.blockchain).2.1 with
  | nil => exact absurd (hnil hb).1 hne
  | mk l => exact (hmk l hb).2

/-- C7, amended, on the example of the spec: after appending the payloads with
amount 10 and amount -3, `data` is the two payloads in that order. -/
theorem history_handler_on_contract_witness :
    appendAll (memLedger true) emptyLedger [amount "10", amount "-3"] =
      some ⟨[amount "10", amount "-3"], none⟩ ∧
    (GetBlockHistoryHandler (memLedger true)
        { newServer with blockchain := ⟨[amount "10", amount "-3"], none⟩ }
        ResponseWriter.fresh (get "/blocks/history")).2 =
      ⟨[], [200], [⟨200, some (.list [amount "10", amount "-3"]), none⟩]⟩ :=
  ⟨rfl,
   (history_handler_on_contract (memLedger true) emptyLedger
      { newServer with blockchain := ⟨[amount "10", amount "-3"], none⟩ }
      [amount "10", amount "-3"] (get "/blocks/history")
      (memLedger_honoursHistory true) rfl).2.2 (by decide)⟩

/-- The scenario of the spec, end to end: two `POST /blocks` with the bodies
`\x7b"amount":10\x7d` and `\x7b"amount":-3\x7d`, then `GET /blocks/history`. -/
theorem scenario_two_appends_then_history :
    (GetBlockHistoryHandler (memLedger false)
        (AddBlockHandler (memLedger false)
          (AddBlockHandler (memLedger false) newServer ResponseWriter.fresh
            (postBlocks (ascii "\x7b\"amount\":10\x7d"))).1
          ResponseWriter.fresh (postBlocks (ascii "\x7b\"amount\":-3\x7d"))).1
        ResponseWriter.fresh (get "/blocks/history")) =
      ({ newServer with
          blockchain := ⟨[amount "10", amount "-3"], none⟩
          log := [.AddBlock (amount "10"), .AddBlock (amount "-3"), .GetBlockHistory] },
       ⟨[], [200], [⟨200, some (.list [amount "10", amount "-3"]), none⟩]⟩) := by
  decide!

/-! ## Headers -/

/-- C8, as stated, fails: after a handler has run, the response header holds
no `Content-Type` entry, so none equal to `application/json`; `writeResponse`
sets no header before `WriteHeader`, nor after. -/
theorem handler_sets_no_content_type :
    (GetBlockHistoryHandler (memLedger false) newServer ResponseWriter.fresh
        (get "/blocks/history")).2.headerGet "Content-Type" = none ∧
    (writeResponse (ResponseWriter.fresh : ResponseWriter Value) 200 .nil "").header = [] ∧
    (GetBlockHistoryHandler (memLedger false) newServer ResponseWriter.fresh
        (get "/blocks/history")).2.headerGet "Content-Type" ≠ some "application/json" := by
  decide

/-- C8, amended: on every branch of every handler the body written is the
encoding of one `Response`, that is the envelope with `code` and optional
`data` and `error`, and the handler leaves the header as it found it: it sets
no `Content-Type`. -/
theorem handler_body_is_envelope_and_header_untouched {σ β : Type} (h : HandlerName)
    (bc : Blockchain σ β) (s : Server σ) (w : ResponseWriter β) (r : Request) :
    (runHandler h bc s w r).2.header = w.header ∧
    ∃ response : Response β,
      (runHandler h bc s w r).2.body = w.body ++ [response.marshal] := by
  cases h
  · show (AddBlockHandler bc s w r).2.header = w.header ∧
      ∃ response : Response β,
        (AddBlockHandler bc s w r).2.body = w.body ++ [response.marshal]
    unfold AddBlockHandler
    cases Decode r.Body with
    | error e => exact ⟨rfl, _, rfl⟩
    | ok v =>
      dsimp only
      cases (bc.AddBlock s.blockchain v).2 <;> exact ⟨rfl, _, rfl⟩
  · show (GetLatestBlockHandler bc s w r).2.header = w.header ∧
      ∃ response : Response β,
        (GetLatestBlockHandler bc s w r).2.body = w.body ++ [response.marshal]
    unfold GetLatestBlockHandler
    dsimp only
    cases (bc.GetLatestBlock s.blockchain).2.2 with
    | some e => exact ⟨rfl, _, rfl⟩
    | none =>
      dsimp only
      cases (bc.GetLatestBlock s.blockchain).2.1 <;> exact ⟨rfl, _, rfl⟩
  · show (GetBlockHistoryHandler bc s w r).2.header = w.header ∧
      ∃ response : Response β,
        (GetBlockHistoryHandler bc s w r).2.body = w.body ++ [response.marshal]
    unfold GetBlockHistoryHandler
    dsimp only
    cases (bc.GetBlockHistory s.blockchain).2.2 <;> exact ⟨rfl, _, rfl⟩

/-! ## `Start` and `Stop` -/

/-- `Start` leaves the `Handler` of the HTTP server as it was. -/
theorem Start_keeps_Handler {σ : Type} (s : Server σ) (addr : String) :
    (Start s addr).server.httpServer.Handler = s.httpServer.Handler := rfl

/-- C2 fails on the code: the router that `Start` builds sends the three
requests to the three handlers, but `Start` never installs it; the server
made by `NewServer` still has a nil `Handler` after `Start`, so the listening
`http.Server` passes the same three requests to `http.DefaultServeMux`. -/
theorem start_never_installs_router :
    NewServer (fun _ => .ok emptyLedger) "chain" = .ok newServer ∧
    route (Start newServer ":8080").r (postBlocks (ascii "null")) = .handler .addBlock ∧
    route (Start newServer ":8080").r (get "/blocks/latest") = .handler .getLatestBlock ∧
    route (Start newServer ":8080").r (get "/blocks/history") = .handler .getBlockHistory ∧
    (Start newServer ":8080").server.httpServer.Handler = none ∧
    (Start newServer ":8080").server.httpServer.dispatch (postBlocks (ascii "null")) =
      .defaultServeMux ∧
    (Start newServer ":8080").server.httpServer.dispatch (get "/blocks/latest") =
      .defaultServeMux ∧
    (Start newServer ":8080").server.httpServer.dispatch (get "/blocks/history") =
      .defaultServeMux := by
  decide

/-- C9: `Stop` closes the ledger once, then shuts the listener down once
under a deadline of five seconds, and returns what that shutdown returns,
whatever the ledger's `Close` returns. -/
theorem stop_closes_then_shuts_down {σ β : Type} (bc : Blockchain σ β)
    (shutdown : HttpServer → Nat → Option String) (s : Server σ) :
    (Stop bc shutdown s).1.log = s.log ++ [.Close, .Shutdown (5 * 1000000000)] ∧
    (Stop bc shutdown s).1.blockchain = (bc.Close s.blockchain).1 ∧
    (Stop bc shutdown s).1.httpServer = s.httpServer ∧
    (Stop bc shutdown s).2 = shutdown s.httpServer (5 * 1000000000) ∧
    ∀ (bc' : Blockchain σ β), (Stop bc' shutdown s).2 = (Stop bc shutdown s).2 := by
  refine ⟨?_, rfl, rfl, rfl, fun _ => rfl⟩
  simp [Stop, stopShutdown, stopClose, Second]

/-! ## Lifecycle -/

theorem noLedgerCallAfter_append (p : Event → Bool) (l l' : List Event) :
    noLedgerCallAfter p (l ++ l') =
      (noLedgerCallAfter p l && noLedgerCallAfter p l' &&
        (!l.any p || l'.all (fun x => !x.isLedgerCall))) := by
  induction l with
  | nil => simp [noLedgerCallAfter]
  | cons e es ih =>
    have h1 : noLedgerCallAfter p ((e :: es) ++ l') =
        ((!p e || (es ++ l').all (fun x => !x.isLedgerCall)) &&
          noLedgerCallAfter p (es ++ l')) := rfl
    rw [h1, ih, List.all_append]
    simp only [noLedgerCallAfter, List.any_cons]
    cases p e <;> cases es.all (fun x => !x.isLedgerCall) <;>
      cases l'.all (fun x => !x.isLedgerCall) <;> cases es.any p <;>
      cases noLedgerCallAfter p es <;> cases noLedgerCallAfter p l' <;> rfl

theorem noLedgerCallAfter_short (p : Event → Bool) (l : List Event) (h : l.length ≤ 1) :
    noLedgerCallAfter p l = true := by
  match l, h with
  | [], _ => rfl
  | [e], _ => simp [noLedgerCallAfter]

/-- A handler leaves the HTTP server as it is and adds to the record its
ledger call, if it gets that far, and nothing else. -/
theorem runHandler_effect {σ β : Type} (h : HandlerName) (bc : Blockchain σ β)
    (s : Server σ) (w : ResponseWriter β) (r : Request) :
    (runHandler h bc s w r).1.httpServer = s.httpServer ∧
    ∃ evs : List Event, (runHandler h bc s w r).1.log = s.log ++ evs ∧
      evs.length ≤ 1 ∧ evs.any Event.isLedgerCall = h.reachesLedger r ∧
      evs.any Event.isClose = false := by
  cases h
  · show (AddBlockHandler bc s w r).1.httpServer = s.httpServer ∧
      ∃ evs : List Event, (AddBlockHandler bc s w r).1.log = s.log ++ evs ∧
        evs.length ≤ 1 ∧ evs.any Event.isLedgerCall = HandlerName.addBlock.reachesLedger r ∧
        evs.any Event.isClose = false
    unfold AddBlockHandler
    cases hdec : Decode r.Body with
    | error e =>
      exact ⟨rfl, [], by simp, by simp, by simp [HandlerName.reachesLedger, hdec], rfl⟩
    | ok v =>
      dsimp only
      cases (bc.AddBlock s.blockchain v).2 <;>
        exact ⟨rfl, [_], rfl, by simp, by simp [HandlerName.reachesLedger, hdec,
          Event.isLedgerCall], rfl⟩
  · show (GetLatestBlockHandler bc s w r).1.httpServer = s.httpServer ∧
      ∃ evs : List Event, (GetLatestBlockHandler bc s w r).1.log = s.log ++ evs ∧
        evs.length ≤ 1 ∧ evs.any Event.isLedgerCall = true ∧ evs.any Event.isClose = false
    unfold GetLatestBlockHandler
    dsimp only
    cases (bc.GetLatestBlock s.blockchain).2.2 with
    | some e => exact ⟨rfl, [_], rfl, by simp, rfl, rfl⟩
    | none =>
      dsimp only
      cases (bc.GetLatestBlock s.blockchain).2.1 <;> exact ⟨rfl, [_], rfl, by simp, rfl, rfl⟩
  · show (GetBlockHistoryHandler bc s w r).1.httpServer = s.httpServer ∧
      ∃ evs : List Event, (GetBlockHistoryHandler bc s w r).1.log = s.log ++ evs ∧
        evs.length ≤ 1 ∧ evs.any Event.isLedgerCall = true ∧ evs.any Event.isClose = false
    unfold GetBlockHistoryHandler
    dsimp only
    cases (bc.GetBlockHistory s.blockchain).2.2 <;> exact ⟨rfl, [_], rfl, by simp, rfl, rfl⟩

/-- A step leaves the `Handler` of the HTTP server as it is and adds at most
one event: a ledger call exactly when it runs a handler that gets that far,
the closing of the ledger exactly when it is the closing half of `Stop`. -/
theorem step_effect {σ β : Type} (bc : Blockchain σ β)
    (shutdown : HttpServer → Nat → Option String) (s s' : Server σ) (a : Action)
    (hstep : step bc shutdown s a = some s') :
    s'.httpServer.Handler = s.httpServer.Handler ∧
    ∃ evs : List Event, s'.log = s.log ++ evs ∧ evs.length ≤ 1 ∧
      evs.any Event.isLedgerCall = a.reachesLedger s.httpServer.Handler ∧
      evs.any Event.isClose = a.isStopClose := by
  cases a with
  | start addr =>
    simp only [step, Option.some.injEq] at hstep
    subst hstep
    exact ⟨rfl, [_], rfl, by simp, rfl, rfl⟩
  | request r =>
    have hd : ({ Addr := "", Handler := s.httpServer.Handler } : HttpServer).dispatch r =
        s.httpServer.dispatch r := rfl
    simp only [step] at hstep
    simp only [Action.reachesLedger, Action.isStopClose, hd]
    cases hdisp : s.httpServer.dispatch r with
    | handler h =>
      rw [hdisp] at hstep
      simp only [Option.some.injEq] at hstep
      subst hstep
      obtain ⟨hsrv, evs, hlog, hlen, hled, hcl⟩ :=
        runHandler_effect h bc s ResponseWriter.fresh r
      exact ⟨by rw [hsrv], evs, hlog, hlen, hled, hcl⟩
    | notFound =>
      rw [hdisp] at hstep
      simp only [Option.some.injEq] at hstep
      subst hstep
      exact ⟨rfl, [], by simp, by simp, rfl, rfl⟩
    | methodNotAllowed =>
      rw [hdisp] at hstep
      simp only [Option.some.injEq] at hstep
      subst hstep
      exact ⟨rfl, [], by simp, by simp, rfl, rfl⟩
    | defaultServeMux =>
      rw [hdisp] at hstep
      simp only [Option.some.injEq] at hstep
      subst hstep
      exact ⟨rfl, [], by simp, by simp, rfl, rfl⟩
  | call h r =>
    simp only [step, Option.some.injEq] at hstep
    subst hstep
    obtain ⟨hsrv, evs, hlog, hlen, hled, hcl⟩ :=
      runHandler_effect h bc s ResponseWriter.fresh r
    exact ⟨by rw [hsrv], evs, hlog, hlen, hled, hcl⟩
  | stopClose =>
    simp only [step, Option.some.injEq] at hstep
    subst hstep
    exact ⟨rfl, [_], rfl, by simp, rfl, rfl⟩
  | stopShutdown =>
    simp only [step] at hstep
    split at hstep
    · simp only [Option.some.injEq] at hstep
      subst hstep
      exact ⟨rfl, [_], rfl, by simp, rfl, rfl⟩
    · cases hstep

/-- The record of an execution has a ledger call after a closing of the
ledger exactly when the record it started from has one, or a handler gets as
far as its ledger call after the ledger has been closed. -/
theorem run_noLedgerCallAfter_close {σ β : Type} (bc : Blockchain σ β)
    (shutdown : HttpServer → Nat → Option String) (acts : List Action) :
    ∀ (s s' : Server σ), run bc shutdown s acts = some s' →
      noLedgerCallAfter Event.isClose s'.log =
        (noLedgerCallAfter Event.isClose s.log &&
          !(if s.log.any Event.isClose then
              acts.any (Action.reachesLedger s.httpServer.Handler)
            else ledgerReachedAfterClose s.httpServer.Handler acts)) := by
  induction acts with
  | nil =>
    intro s s' h
    simp only [run, Option.some.injEq] at h
    subst h
    simp [ledgerReachedAfterClose]
  | cons a as ih =>
    intro s s' h
    unfold run at h
    split at h
    · rename_i s1 hs1
      obtain ⟨hH, evs, hlog, hlen, hled, hcl⟩ := step_effect bc shutdown s s1 a hs1
      rw [ih s1 s' h, hH, hlog, noLedgerCallAfter_append, List.any_append, hcl,
        noLedgerCallAfter_short _ evs hlen]
      have hall : evs.all (fun x => !x.isLedgerCall) =
          !a.reachesLedger s.httpServer.Handler := by
        rw [← hled]
        match evs, hlen with
        | [], _ => rfl
        | [e], _ => simp
      rw [hall]
      simp only [ledgerReachedAfterClose, List.any_cons]
      cases noLedgerCallAfter Event.isClose s.log <;> cases s.log.any Event.isClose <;>
        cases a.isStopClose <;> cases a.reachesLedger s.httpServer.Handler <;>
        cases as.any (Action.reachesLedger s.httpServer.Handler) <;>
        cases ledgerReachedAfterClose s.httpServer.Handler as <;> simp
    · cases h

/-- C10, as stated, fails: after `Start` and the closing half of `Stop`,
`GetLatestBlockHandler` run on a request still calls the ledger, so the
record of the server holds a ledger call after the closing of the ledger. -/
theorem ledger_call_after_close_is_reachable :
    (run (memLedger false) (fun _ _ => none) newServer
        [.start ":8080", .stopClose, .call .getLatestBlock (get "/blocks/latest")]).map
      (fun s => s.log) = some [.ListenAndServe ":8080", .Close, .GetLatestBlock] ∧
    noLedgerCallAfter Event.isClose [.ListenAndServe ":8080", .Close, .GetLatestBlock] =
      false := by
  decide

/-- C10, amended: in every execution from a server with an empty record, a
ledger call is recorded after `Stop` has begun closing the ledger exactly
when, after that point, one of the three handlers runs and gets as far as its
ledger call; `Start` and the two halves of `Stop` make none, and no handler
is guarded against a closed ledger. -/
theorem ledger_call_after_close_iff_handler_runs {σ β : Type} (bc : Blockchain σ β)
    (shutdown : HttpServer → Nat → Option String) (s0 s : Server σ) (acts : List Action)
    (h0 : s0.log = []) (hrun : run bc shutdown s0 acts = some s) :
    noLedgerCallAfter Event.isClose s.log =
      !ledgerReachedAfterClose s0.httpServer.Handler acts := by
  rw [run_noLedgerCallAfter_close bc shutdown acts s0 s hrun, h0]
  simp [noLedgerCallAfter]

/-- C10, amended, on two executions: requests that reach the HTTP server
during and after `Stop` select no handler and leave no ledger call after the
closing; a handler method called after the closing leaves one. -/
theorem ledger_call_after_close_iff_handler_runs_witness :
    (run (memLedger false) (fun _ _ => none) newServer
        [.start ":8080", .call .addBlock (postBlocks (ascii "null")), .stopClose,
         .request (get "/blocks/latest"), .stopShutdown,
         .request (postBlocks (ascii "null"))] =
      some
        { blockchain := ⟨[.null], none⟩
          httpServer := ⟨":8080", none⟩
          log := [.ListenAndServe ":8080", .AddBlock .null, .Close, .Shutdown 5000000000] } ∧
    noLedgerCallAfter Event.isClose
        [.ListenAndServe ":8080", .AddBlock .null, .Close, .Shutdown 5000000000] = true) ∧
    (run (memLedger false) (fun _ _ => none) newServer
        [.start ":8080", .stopClose, .stopShutdown,
         .call .addBlock (postBlocks (ascii "null"))] =
      some
        { blockchain := ⟨[.null], none⟩
          httpServer := ⟨":8080", none⟩
          log := [.ListenAndServe ":8080", .Close, .Shutdown 5000000000, .AddBlock .null] } ∧
    noLedgerCallAfter Event.isClose
        [.ListenAndServe ":8080", .Close, .Shutdown 5000000000, .AddBlock .null] = false) :=
  ⟨⟨by decide,
    ledger_call_after_close_iff_handler_runs (memLedger false) (fun _ _ => none) newServer
      { blockchain := ⟨[.null], none⟩
        httpServer := ⟨":8080", none⟩
        log := [.ListenAndServe ":8080", .AddBlock .null, .Close, .Shutdown 5000000000] }
      [.start ":8080", .call .addBlock (postBlocks (ascii "null")), .stopClose,
       .request (get "/blocks/latest"), .stopShutdown,
       .request (postBlocks (ascii "null"))] rfl (by decide)⟩,
   ⟨by decide,
    ledger_call_after_close_iff_handler_runs (memLedger false) (fun _ _ => none) newServer
      { blockchain := ⟨[.null], none⟩
        httpServer := ⟨":8080", none⟩
        log := [.ListenAndServe ":8080", .Close, .Shutdown 5000000000, .AddBlock .null] }
      [.start ":8080", .stopClose, .stopShutdown,
       .call .addBlock (postBlocks (ascii "null"))] rfl (by decide)⟩⟩

theorem reachesLedger_none_of_not_call (a : Action) (ha : a.isCall = false) :
    a.reachesLedger none = false := by
  cases a with
  | call h r => simp [Action.isCall] at ha
  | request r => rfl
  | start addr => rfl
  | stopClose => rfl
  | stopShutdown => rfl

theorem ledgerReachedAfterClose_none_of_no_call (acts : List Action)
    (h : acts.all (fun a => !a.isCall) = true) : ledgerReachedAfterClose none acts = false := by
  have hany : ∀ l : List Action, l.all (fun a => !a.isCall) = true →
      l.any (Action.reachesLedger none) = false := by
    intro l hl
    induction l with
    | nil => rfl
    | cons a as ih =>
      simp only [List.all_cons, Bool.and_eq_true, Bool.not_eq_true'] at hl
      simp [List.any_cons, reachesLedger_none_of_not_call a hl.1, ih hl.2]
  induction acts with
  | nil => rfl
  | cons a as ih =>
    simp only [List.all_cons, Bool.and_eq_true] at h
    unfold ledgerReachedAfterClose
    split
    · exact hany as h.2
    · exact ih h.2

/-- On the server as `NewServer` and `Start` leave it, with the nil `Handler`,
an execution without direct calls of the handler methods records no ledger
call after the closing of the ledger: the requests that reach the HTTP server
select none of the three handlers. -/
theorem no_ledger_call_after_close_through_listener {σ β : Type} (bc : Blockchain σ β)
    (shutdown : HttpServer → Nat → Option String) (s0 s : Server σ) (acts : List Action)
    (h0 : s0.log = []) (hH : s0.httpServer.Handler = none)
    (hacts : acts.all (fun a => !a.isCall) = true)
    (hrun : run bc shutdown s0 acts = some s) :
    noLedgerCallAfter Event.isClose s.log = true := by
  rw [run_noLedgerCallAfter_close bc shutdown acts s0 s hrun, h0, hH,
    ledgerReachedAfterClose_none_of_no_call acts hacts]
  simp [noLedgerCallAfter]

/-- Were the router of `Start` installed as the `Handler`, a request reaching
the HTTP server between the two halves of `Stop` would call the closed
ledger. -/
theorem installed_router_reaches_closed_ledger :
    (run (memLedger false) (fun _ _ => none)
        { newServer with
          httpServer := ⟨"", some (Start newServer ":8080").r⟩ }
        [.start ":8080", .stopClose, .request (get "/blocks/latest")]).map
      (fun s => s.log) = some [.ListenAndServe ":8080", .Close, .GetLatestBlock] := by
  decide

end Blockchainlite
